import Mathlib

/-!
Shallow embedding of the versuchung experiment framework
(files src/versuchung/experiment.py and src/versuchung/database.py)
and proofs about its specification.

The embedding keeps the source structure: the identity hasher of
Experiment.__setup_output_directory, the reference-counted connection
registry of Database_SQLite, the Table / TableDict abstractions, the
Database_SQlite_Merger, and the stage ordering of Experiment.execute.
-/

namespace Versuchung

/-! ### Identity hasher (Experiment.__setup_output_directory, experiment.py lines 225-252)

A metadata dict is embedded as an association list of (key, value)
string pairs; a Python dict has pairwise distinct keys, which appears as
a Nodup hypothesis on the mapped keys.  The md5 object is a stream
digest: the hex digest is a function of the concatenation of all strings
fed to update.  We therefore embed the digest input as that
concatenated string and keep the hash itself as an arbitrary function
argument hexDigest.
-/

/-- The key order used by Python sorted() on the keys: lexicographic
comparison of the key strings, as comparison of their character lists. -/
def keyLE (a b : String × String) : Prop := a.1.data ≤ b.1.data

instance : DecidableRel keyLE := fun a b => inferInstanceAs (Decidable (a.1.data ≤ b.1.data))

instance : IsTotal (String × String) keyLE := ⟨fun a b => le_total a.1.data b.1.data⟩

instance : IsTrans (String × String) keyLE := ⟨fun _ _ _ h h' => le_trans h h'⟩

/-- Embedding of for key in sorted(metadata.keys()): with distinct keys,
iterating sorted keys and looking each one up is iterating the item
pairs sorted by key. -/
def sortedItems (m : List (String × String)) : List (String × String) :=
  List.insertionSort keyLE m

/-- The exact byte stream fed to the md5 object in
Experiment.__setup_output_directory: first "version %d" % version, then
key + " " + metadata[key] for each key in sorted order, with no
separator between successive update calls. -/
def digestInput (version : Nat) (m : List (String × String)) : String :=
  (sortedItems m).foldl (fun acc p => acc ++ p.1 ++ " " ++ p.2)
    ("version " ++ toString version)

/-- The experiment instance identifier "%s-%s" % (title, m.hexdigest()),
with the hex digest function abstracted as a parameter. -/
def experimentInstance (hexDigest : String → String) (title : String)
    (version : Nat) (m : List (String × String)) : String :=
  title ++ "-" ++ hexDigest (digestInput version m)

/-- Strict key order on items. -/
def keyLT (a b : String × String) : Prop := a.1.data < b.1.data

instance : IsAntisymm (String × String) keyLT :=
  ⟨fun _ _ h h' => absurd h' (not_lt_of_gt h)⟩

theorem sortedItems_perm (m : List (String × String)) : List.Perm (sortedItems m) m :=
  List.perm_insertionSort keyLE m

theorem sortedItems_sorted (m : List (String × String)) :
    List.Sorted keyLE (sortedItems m) :=
  List.sorted_insertionSort keyLE m

/-- With pairwise distinct keys, two permuted association lists have the
same key-sorted item list. -/
theorem sortedItems_eq_of_perm (m₁ m₂ : List (String × String))
    (hperm : List.Perm m₁ m₂) (hnd : (m₁.map Prod.fst).Nodup) :
    sortedItems m₁ = sortedItems m₂ := by
  have hp : List.Perm (sortedItems m₁) (sortedItems m₂) :=
    (sortedItems_perm m₁).trans (hperm.trans (sortedItems_perm m₂).symm)
  have hnd₁ : ((sortedItems m₁).map Prod.fst).Nodup := by
    refine (List.Perm.nodup_iff ?_).mpr hnd
    exact (sortedItems_perm m₁).map Prod.fst
  have hnd₂ : ((sortedItems m₂).map Prod.fst).Nodup := by
    refine (List.Perm.nodup_iff ?_).mpr hnd₁
    exact (hp.map Prod.fst).symm
  have hlt : ∀ l : List (String × String), List.Sorted keyLE l →
      (l.map Prod.fst).Nodup → List.Sorted keyLT l := by
    intro l hs hn
    have hne : l.Pairwise (fun a b : String × String => a.1 ≠ b.1) :=
      (List.pairwise_map).mp hn
    exact (hs.and hne).imp
      (fun h => lt_of_le_of_ne h.1 (fun hd => h.2 (String.toList_inj.mp hd)))
  exact List.eq_of_perm_of_sorted hp
    (hlt _ (sortedItems_sorted m₁) hnd₁)
    (hlt _ (sortedItems_sorted m₂) hnd₂)

theorem string_append_cancel_left {s t u : String} (h : s ++ t = s ++ u) : t = u := by
  have hd : s.data ++ t.data = s.data ++ u.data := by
    have h' := congrArg String.data h
    simpa using h'
  cases t
  cases u
  simp only [List.append_cancel_left_eq] at hd
  exact congrArg String.mk hd

/-- C1: for two metadata mappings with identical key/value sets but
different insertion order and the same version, the computed experiment
instance identifier (title, dash, digest over "version v" and the
sorted "key value" pairs) is identical, whatever the digest function. -/
theorem identifier_insertion_order_independent (hexDigest : String → String)
    (title : String) (version : Nat) (m₁ m₂ : List (String × String))
    (hperm : List.Perm m₁ m₂) (hnd : (m₁.map Prod.fst).Nodup) :
    experimentInstance hexDigest title version m₁ =
      experimentInstance hexDigest title version m₂ := by
  unfold experimentInstance digestInput
  rw [sortedItems_eq_of_perm m₁ m₂ hperm hnd]

/-- Witness for C1 at the concrete reordered mappings. -/
theorem identifier_insertion_order_independent_witness :
    List.Perm [("a", "1"), ("b", "2")] [("b", "2"), ("a", "1")] ∧
    (([("a", "1"), ("b", "2")] : List (String × String)).map Prod.fst).Nodup ∧
    experimentInstance id "E" 1 [("a", "1"), ("b", "2")] =
      experimentInstance id "E" 1 [("b", "2"), ("a", "1")] :=
  ⟨by decide, by decide,
    identifier_insertion_order_independent id "E" 1 _ _ (by decide) (by decide)⟩

/-- C2 counterexample: the two distinct mappings a maps-to xb, c maps-to y
and a maps-to x, bc maps-to y feed the identical byte stream
"version 1a xbc y" to the digest, because successive "key value" pairs
are concatenated without any separator; hence the computed identifiers
coincide although the mappings differ in the value of key a. -/
theorem identifier_distinguishes_counterexample :
    experimentInstance id "E" 1 [("a", "xb"), ("c", "y")] =
      experimentInstance id "E" 1 [("a", "x"), ("bc", "y")] ∧
    List.lookup "a" [("a", "xb"), ("c", "y")] ≠
      List.lookup "a" [("a", "x"), ("bc", "y")] ∧
    digestInput 1 [("a", "xb"), ("c", "y")] = digestInput 1 [("a", "x"), ("bc", "y")] :=
  ⟨by decide, by decide, by decide⟩

/-- C2 (amended): identifiers differ whenever the canonicalized digest
inputs differ and the digest function is injective; distinct mappings
can share a digest input, so the hypothesis on the digest input cannot
be weakened to mere inequality of the mappings. -/
theorem identifier_ne_of_digestInput_ne (hexDigest : String → String)
    (hinj : Function.Injective hexDigest) (title : String) (version : Nat)
    (m₁ m₂ : List (String × String))
    (hne : digestInput version m₁ ≠ digestInput version m₂) :
    experimentInstance hexDigest title version m₁ ≠
      experimentInstance hexDigest title version m₂ := by
  intro h
  exact hne (hinj (string_append_cancel_left h))

/-- Witness for the amended C2 at concrete mappings with distinct digest inputs. -/
theorem identifier_ne_of_digestInput_ne_witness :
    Function.Injective (fun s : String => s) ∧
    digestInput 1 [("a", "1")] ≠ digestInput 1 [("a", "2")] ∧
    experimentInstance (fun s => s) "E" 1 [("a", "1")] ≠
      experimentInstance (fun s => s) "E" 1 [("a", "2")] :=
  ⟨fun _ _ h => h, by decide,
    identifier_ne_of_digestInput_ne _ (fun _ _ h => h) "E" 1 _ _ (by decide)⟩

/-! ### Connection registry (Database_SQLite.__connect and __disconnect, database.py lines 66-85)

The process-wide dict Database_SQLite.database_connections maps a path
to a pair of sqlite handle and use count.  Handles are embedded as
numbers handed out by a counter; a close event is recorded in a log so
that "closed exactly once" is expressible.  Looking up a missing path in
__disconnect raises KeyError, embedded as a None result.
-/

/-- One process state: the registry (path to handle and refcount), the
next fresh handle number, and the log of closed handles. -/
structure ConnState where
  reg : List (String × Nat × Nat)
  next : Nat
  closed : List Nat
deriving DecidableEq

def regLookup (p : String) : List (String × Nat × Nat) → Option (Nat × Nat)
  | [] => none
  | (q, h, c) :: rest => if q = p then some (h, c) else regLookup p rest

def regSet (p : String) (hc : Nat × Nat) : List (String × Nat × Nat) → List (String × Nat × Nat)
  | [] => [(p, hc.1, hc.2)]
  | (q, h, c) :: rest => if q = p then (p, hc.1, hc.2) :: rest else (q, h, c) :: regSet p hc rest

def regErase (p : String) : List (String × Nat × Nat) → List (String × Nat × Nat)
  | [] => []
  | (q, h, c) :: rest => if q = p then rest else (q, h, c) :: regErase p rest

/-- Database_SQLite.__connect: an existing entry has its count bumped
and its handle returned; otherwise a fresh handle is opened and stored
with count 1. -/
def connect (p : String) (s : ConnState) : ConnState × Nat :=
  match regLookup p s.reg with
  | some (db, count) => ({ s with reg := regSet p (db, count + 1) s.reg }, db)
  | none =>
    ({ reg := regSet p (s.next, 1) s.reg, next := s.next + 1, closed := s.closed }, s.next)

/-- Database_SQLite.__disconnect: commit always (not observable here),
then either close and delete the entry when the count is 1, or
decrement; a missing entry is the KeyError case, returned as none. -/
def disconnect (p : String) (s : ConnState) : Option ConnState :=
  match regLookup p s.reg with
  | none => none
  | some (db, count) =>
    if count = 1 then some { s with reg := regErase p s.reg, closed := s.closed ++ [db] }
    else some { s with reg := regSet p (db, count - 1) s.reg }

/-- Run a sequence of operations on one path, true standing for connect
and false for disconnect; collects the handles the connects return. -/
def runOps (p : String) : List Bool → ConnState → Option (ConnState × List Nat)
  | [], s => some (s, [])
  | true :: ops, s =>
    let r := connect p s
    (runOps p ops r.1).map (fun x => (x.1, r.2 :: x.2))
  | false :: ops, s =>
    match disconnect p s with
    | none => none
    | some s' => runOps p ops s'

theorem regLookup_single (p : String) (h c : Nat) :
    regLookup p [(p, h, c)] = some (h, c) := by
  simp [regLookup]

theorem regSet_single (p : String) (hc : Nat × Nat) (h c : Nat) :
    regSet p hc [(p, h, c)] = [(p, hc.1, hc.2)] := by
  simp [regSet]

theorem regErase_single (p : String) (h c : Nat) : regErase p [(p, h, c)] = [] := by
  simp [regErase]

/-- Main loop invariant: starting from a registry holding exactly the
entry (p, h, c) with positive count c, a run whose proper prefixes all
keep the balance of disconnects strictly below c plus the connects, and
whose total balance is exactly zero, succeeds, returns the handle h from
every connect, ends with the entry removed, and closes h exactly once. -/
theorem runOps_loop (p : String) :
    ∀ (ops : List Bool) (c h nx : Nat) (cl : List Nat), 0 < c →
      (∀ k, k < ops.length → ((ops.take k).count false) < c + (ops.take k).count true) →
      (ops.count false = c + ops.count true) →
      runOps p ops ⟨[(p, h, c)], nx, cl⟩ =
        some (⟨[], nx, cl ++ [h]⟩, List.replicate (ops.count true) h)
  | [], c, h, nx, cl, hc, _, hend => by
    simp [List.count] at hend
    omega
  | true :: ops, c, h, nx, cl, hc, hpre, hend => by
    have step : runOps p (true :: ops) ⟨[(p, h, c)], nx, cl⟩ =
        (runOps p ops ⟨[(p, h, c + 1)], nx, cl⟩).map (fun x => (x.1, h :: x.2)) := by
      simp [runOps, connect, regLookup_single, regSet_single]
    rw [step, runOps_loop p ops (c + 1) h nx cl (by omega) ?hpre ?hend]
    · simp [List.count_cons, List.replicate_succ]
    case hpre =>
      intro k hk
      have h1 := hpre (k + 1) (by simpa using Nat.succ_lt_succ hk)
      simp [List.count_cons] at h1
      omega
    case hend =>
      have h1 : (true :: ops).count false = c + (true :: ops).count true := hend
      simp [List.count_cons] at h1
      omega
  | false :: ops, c, h, nx, cl, hc, hpre, hend => by
    cases ops with
    | nil =>
      have hc1 : c = 1 := by
        have h1 : ([false] : List Bool).count false = c + ([false] : List Bool).count true :=
          hend
        simp [List.count_cons] at h1
        omega
      subst hc1
      simp [runOps, disconnect, regLookup_single, regErase_single, List.count_cons]
    | cons b ops' =>
      have hcgt : 1 < c := by
        have h1 := hpre 1 (by simp)
        simpa [List.count_cons] using h1
      have step : runOps p (false :: b :: ops') ⟨[(p, h, c)], nx, cl⟩ =
          runOps p (b :: ops') ⟨[(p, h, c - 1)], nx, cl⟩ := by
        have hne : ¬ c = 1 := by omega
        simp [runOps, disconnect, regLookup_single, regSet_single, hne]
      rw [step, runOps_loop p (b :: ops') (c - 1) h nx cl (by omega) ?hpre ?hend]
      · simp [List.count_cons]
      case hpre =>
        intro k hk
        have h1 := hpre (k + 1) (by simpa using Nat.succ_lt_succ hk)
        simp [List.take_succ_cons, List.count_cons] at h1
        omega
      case hend =>
        have h1 : (false :: b :: ops').count false =
            c + (false :: b :: ops').count true := hend
        simp [List.count_cons] at h1
        simp [List.count_cons]
        omega

/-- C3 (amended): for an interleaving of N connects and N disconnects of
one path whose every proper nonempty prefix has strictly more connects
than disconnects, the run from an empty registry succeeds (every
disconnect finds the entry, so the refcount never underflows), every
connect returns the first handle opened, the entry for the path is
absent from the registry at the end, and that handle is closed exactly
once.  The strict prefix condition is needed: if a prefix balances to
zero, the handle is closed there and the next connect opens a fresh one. -/
theorem registry_refcount_balanced (p : String) (ops : List Bool) (n : Nat)
    (hn : 1 ≤ n) (hct : ops.count true = n) (hcf : ops.count false = n)
    (hvalid : ∀ k, k ≤ ops.length → (ops.take k).count false ≤ (ops.take k).count true)
    (hstrict : ∀ k, k < ops.length → 0 < k →
      (ops.take k).count false < (ops.take k).count true) :
    runOps p ops ⟨[], 0, []⟩ = some (⟨[], 1, [0]⟩, List.replicate n 0) := by
  cases ops with
  | nil =>
    simp [List.count] at hct
    omega
  | cons b rest =>
    cases b with
    | false =>
      have h1 := hvalid 1 (by simp)
      simp [List.count_cons] at h1
    | true =>
      have step : runOps p (true :: rest) ⟨[], 0, []⟩ =
          (runOps p rest ⟨[(p, 0, 1)], 1, []⟩).map (fun x => (x.1, 0 :: x.2)) := by
        simp [runOps, connect, regLookup, regSet]
      rw [step, runOps_loop p rest 1 0 1 [] (by omega) ?hpre ?hend]
      · have hct' : rest.count true + 1 = n := by
          simp [List.count_cons] at hct
          omega
        subst hct'
        simp [List.replicate_succ]
      case hpre =>
        intro k hk
        have h1 := hstrict (k + 1) (by simpa using Nat.succ_lt_succ hk) (by omega)
        simp [List.take_succ_cons, List.count_cons] at h1
        omega
      case hend =>
        simp [List.count_cons] at hct hcf
        omega

/-- Witness for the amended C3: two connects followed by two disconnects. -/
theorem registry_refcount_balanced_witness :
    (∀ k, k ≤ ([true, true, false, false] : List Bool).length →
      (([true, true, false, false] : List Bool).take k).count false ≤
        (([true, true, false, false] : List Bool).take k).count true) ∧
    runOps "x.db" [true, true, false, false] ⟨[], 0, []⟩ =
      some (⟨[], 1, [0]⟩, List.replicate 2 0) :=
  ⟨by decide,
    registry_refcount_balanced "x.db" [true, true, false, false] 2
      (by decide) (by decide) (by decide) (by decide) (by decide)⟩

/-- C3 counterexample: the interleaving connect, disconnect, connect,
disconnect never disconnects more than it has connected, yet the second
connect returns handle 1 while the first returned handle 0 (the entry
was deleted and a fresh connection opened in between), and two close
events occur, one per handle; so the claims that every later connect
returns the same underlying handle and that the handle is closed exactly
once fail for this valid interleaving. -/
theorem registry_refcount_counterexample :
    (∀ k, k ≤ ([true, false, true, false] : List Bool).length →
      (([true, false, true, false] : List Bool).take k).count false ≤
        (([true, false, true, false] : List Bool).take k).count true) ∧
    (runOps "x.db" [true, false, true, false] ⟨[], 0, []⟩).map (fun r => r.2) =
      some [0, 1] ∧
    (runOps "x.db" [true, false, true, false] ⟨[], 0, []⟩).map (fun r => r.1.closed) =
      some [0, 1] ∧
    (0 : Nat) ≠ 1 := by
  exact ⟨by decide, by decide, by decide, by decide⟩

/-! ### Table abstraction (Table, database.py lines 164-271)

A row handed to Table.insert is a Python dict (keyword arguments merged
with the optional data dict); it is embedded as an association list of
string pairs.  Setting kwargs["experiment"] replaces the value of an
existing key or appends the pair.  The key-set comparison
set(kwargs.keys()) == set(f for f, t in fields) is embedded through
Finset String.  Both asserts of Table.insert become the integrity error
of the specification's error taxonomy. -/

inductive DbError
| integrityError
| notImplementedError
deriving DecidableEq

/-- Python dict item assignment d[k] = v on an association list. -/
def dictSet : List (String × String) → String → String → List (String × String)
  | [], k, v => [(k, v)]
  | p :: rest, k, v => if p.1 = k then (k, v) :: rest else p :: dictSet rest k v

/-- The key set of a dict or of a field list, as in set(d.keys()). -/
def dictKeys (d : List (String × String)) : Finset String := (d.map Prod.fst).toFinset

/-- One entry of the field list given to Table: either a plain string
(column of type text) or a (name, type) pair; Table.__field_typify. -/
inductive FieldSpec
| plain (name : String)
| typed (name ty : String)
deriving DecidableEq

def fieldTypify : List FieldSpec → List (String × String)
  | [] => []
  | .plain n :: rest => (n, "text") :: fieldTypify rest
  | .typed n t :: rest => (n, t) :: fieldTypify rest

/-- Table.__init__ prepends the plain field "experiment" before typifying. -/
def tableFields (fields : List FieldSpec) : List (String × String) :=
  fieldTypify (FieldSpec.plain "experiment" :: fields)

/-- Table.insert: assert the table is writable, stamp the experiment
identifier over the row, assert the key set equals the declared field
names, then append the row.  Both failed asserts are integrity errors
and leave the stored rows unchanged. -/
def tableInsert (fields : List (String × String)) (readOnly : Bool) (expId : String)
    (rows : List (List (String × String))) (kwargs : List (String × String)) :
    Except DbError (List (List (String × String))) :=
  if readOnly then .error .integrityError
  else
    let row := dictSet kwargs "experiment" expId
    if dictKeys row = dictKeys fields then .ok (rows ++ [row])
    else .error .integrityError

/-- The rows stored after an insert call: unchanged when the call fails. -/
def tableInsertRows (fields : List (String × String)) (readOnly : Bool) (expId : String)
    (rows : List (List (String × String))) (kwargs : List (String × String)) :
    List (List (String × String)) :=
  match tableInsert fields readOnly expId rows kwargs with
  | .ok rs => rs
  | .error _ => rows

/-- C4: an insert whose stamped key set differs from the declared field
set fails with the integrity error, and an insert on a table that is not
in output (writable) mode fails with the integrity error; in both cases
the stored rows are unchanged. -/
theorem tableInsert_integrity (fields : List (String × String)) (readOnly : Bool)
    (expId : String) (rows : List (List (String × String)))
    (kwargs : List (String × String))
    (hbad : readOnly = true ∨
      dictKeys (dictSet kwargs "experiment" expId) ≠ dictKeys fields) :
    tableInsert fields readOnly expId rows kwargs = .error .integrityError ∧
    tableInsertRows fields readOnly expId rows kwargs = rows := by
  rcases hbad with hro | hkeys
  · subst hro
    exact ⟨rfl, rfl⟩
  · cases readOnly with
    | true => exact ⟨rfl, rfl⟩
    | false =>
      have h1 : tableInsert fields false expId rows kwargs = .error .integrityError := by
        simp [tableInsert, hkeys]
      exact ⟨h1, by simp [tableInsertRows, h1]⟩

/-- Witness for C4: a row missing the declared column "value" is refused
and nothing is stored. -/
theorem tableInsert_integrity_witness :
    ((true : Bool) = true ∨
      dictKeys (dictSet [("key", "k")] "experiment" "X") ≠
        dictKeys (tableFields [FieldSpec.plain "key", FieldSpec.plain "value"])) ∧
    tableInsert (tableFields [FieldSpec.plain "key", FieldSpec.plain "value"]) false "X"
        [] [("key", "k")] = .error .integrityError ∧
    tableInsertRows (tableFields [FieldSpec.plain "key", FieldSpec.plain "value"]) false "X"
        [] [("key", "k")] = [] :=
  ⟨Or.inr (by decide),
    tableInsert_integrity _ false "X" [] [("key", "k")] (Or.inr (by decide))⟩

/-- Looking up the experiment column after stamping always yields the
stamped identifier. -/
theorem dictSet_lookup (d : List (String × String)) (k v : String) :
    List.lookup k (dictSet d k v) = some v := by
  induction d with
  | nil => simp [dictSet, List.lookup]
  | cons p rest ih =>
    by_cases hk : p.1 = k
    · simp [dictSet, hk, List.lookup]
    · have hb : (k == p.1) = false := beq_eq_false_iff_ne.mpr (fun he => hk he.symm)
      simp [dictSet, hk, List.lookup, hb, ih]

/-- C9: every insert that passes validation stores exactly the stamped
row, whose experiment column holds the current experiment identifier;
a caller-supplied experiment entry is overwritten, not rejected. -/
theorem tableInsert_stamps_identifier (fields : List (String × String))
    (readOnly : Bool) (expId : String) (rows : List (List (String × String)))
    (kwargs : List (String × String)) (rs : List (List (String × String)))
    (hok : tableInsert fields readOnly expId rows kwargs = .ok rs) :
    rs = rows ++ [dictSet kwargs "experiment" expId] ∧
    List.lookup "experiment" (dictSet kwargs "experiment" expId) = some expId := by
  refine ⟨?_, dictSet_lookup kwargs "experiment" expId⟩
  cases readOnly with
  | true => simp [tableInsert] at hok
  | false =>
    by_cases hkeys : dictKeys (dictSet kwargs "experiment" expId) = dictKeys fields
    · simp [tableInsert, hkeys] at hok
      exact hok.symm
    · simp [tableInsert, hkeys] at hok

/-- Witness for C9: a row that tries to smuggle experiment = SPOOF is
accepted and stored with the true identifier RealId instead. -/
theorem tableInsert_stamps_identifier_witness :
    tableInsert (tableFields [FieldSpec.plain "key", FieldSpec.plain "value"]) false "RealId"
        [] [("key", "k"), ("value", "v"), ("experiment", "SPOOF")] =
      .ok [[("key", "k"), ("value", "v"), ("experiment", "RealId")]] ∧
    ([[("key", "k"), ("value", "v"), ("experiment", "RealId")]] :
        List (List (String × String))) =
      [] ++ [dictSet [("key", "k"), ("value", "v"), ("experiment", "SPOOF")]
        "experiment" "RealId"] ∧
    List.lookup "experiment"
        (dictSet [("key", "k"), ("value", "v"), ("experiment", "SPOOF")]
          "experiment" "RealId") = some "RealId" :=
  have hok : tableInsert (tableFields [FieldSpec.plain "key", FieldSpec.plain "value"])
      false "RealId" [] [("key", "k"), ("value", "v"), ("experiment", "SPOOF")] =
      .ok [[("key", "k"), ("value", "v"), ("experiment", "RealId")]] := rfl
  ⟨hok,
    (tableInsert_stamps_identifier _ false "RealId" [] _ _ hok).1,
    (tableInsert_stamps_identifier _ false "RealId" [] _ _ hok).2⟩

/-! ### TableDict (database.py lines 274-314)

TableDict backs a Python dict by a Table with columns (experiment, key,
value); a stored row is embedded as that triple.  TableDict.insert
unconditionally raises NotImplementedError.  TableDict.flush clears all
rows of the current experiment and rewrites one row per dict entry;
reopening as an input parameter materializes the dict from the rows of
the experiment with the experiment column stripped. -/

/-- TableDict.insert, which raises NotImplementedError for any
positional and keyword arguments. -/
def tableDictInsertCall (args : List String) (kwargs : List (String × String)) :
    Except DbError Unit :=
  .error .notImplementedError

/-- C10: every call of the dict variant's insert raises
NotImplementedError, whatever the arguments. -/
theorem tableDictInsertCall_notImplemented (args : List String)
    (kwargs : List (String × String)) :
    tableDictInsertCall args kwargs = .error .notImplementedError := rfl

/-- A row of the backing table of a TableDict: experiment, key, value. -/
abbrev StoredRow := String × String × String

/-- Table.clear: DELETE FROM table WHERE experiment = expId. -/
def tableClear (expId : String) (store : List StoredRow) : List StoredRow :=
  store.filter (fun r => ¬ r.1 = expId)

/-- The values of the key column over the whole backing table.  The
TableDict constructor passes index = "key", so create_table declares the
key column as key text PRIMARY KEY and the engine keeps these values
pairwise distinct across all experiments. -/
def storeKeys (store : List StoredRow) : List String := store.map (fun r => r.2.1)

/-- Table.insert of one dict item through the sqlite backend: the
engine raises IntegrityError when the inserted key value already exists
in the PRIMARY KEY column, and stores the stamped row otherwise. -/
def tableDictInsertRow (expId k v : String) (store : List StoredRow) :
    Except DbError (List StoredRow) :=
  if k ∈ storeKeys store then .error .integrityError
  else .ok (store ++ [(expId, k, v)])

/-- The insert loop of TableDict.flush; an IntegrityError raised by the
engine propagates and aborts the flush. -/
def tableDictFlushLoop (expId : String) :
    List (String × String) → List StoredRow → Except DbError (List StoredRow)
  | [], st => .ok st
  | kv :: rest, st =>
    match tableDictInsertRow expId kv.1 kv.2 st with
    | .error e => .error e
    | .ok st' => tableDictFlushLoop expId rest st'

/-- TableDict.flush: clear the rows of the current experiment, then
Table.insert one stamped row per dict item. -/
def tableDictFlushChecked (expId : String) (d : List (String × String))
    (store : List StoredRow) : Except DbError (List StoredRow) :=
  tableDictFlushLoop expId d (tableClear expId store)

/-- Table.value restricted to one experiment: the rows whose experiment
column is expId, with that column stripped, in storage order. -/
def tableValue (expId : String) (store : List StoredRow) : List (String × String) :=
  (store.filter (fun r => r.1 = expId)).map (fun r => (r.2.1, r.2.2))

/-- Python dict.update with a list of pairs, later pairs overriding. -/
def dictUpdate (d : List (String × String)) (kvs : List (String × String)) :
    List (String × String) :=
  kvs.foldl (fun acc kv => dictSet acc kv.1 kv.2) d

/-- TableDict.before_experiment_run in input mode: materialize the dict
from the stored rows of the experiment. -/
def tableDictRead (expId : String) (store : List StoredRow) : List (String × String) :=
  dictUpdate [] (tableValue expId store)

theorem dictSet_append_of_not_mem (acc : List (String × String)) (k v : String)
    (hk : ¬ k ∈ acc.map Prod.fst) : dictSet acc k v = acc ++ [(k, v)] := by
  induction acc with
  | nil => simp [dictSet]
  | cons p rest ih =>
    simp only [List.map_cons, List.mem_cons] at hk
    push_neg at hk
    have hp : ¬ p.1 = k := fun h => hk.1 h.symm
    simp [dictSet, hp, ih hk.2]

theorem dictUpdate_eq_append (kvs : List (String × String)) :
    ∀ acc : List (String × String), ((acc ++ kvs).map Prod.fst).Nodup →
      dictUpdate acc kvs = acc ++ kvs := by
  induction kvs with
  | nil => intro acc _; simp [dictUpdate]
  | cons kv rest ih =>
    intro acc hnd
    have hk : ¬ kv.1 ∈ acc.map Prod.fst := by
      intro hmem
      have h1 : ((acc.map Prod.fst) ++ (kv.1 :: rest.map Prod.fst)).Nodup := by
        simpa [List.map_append] using hnd
      have h2 := (List.nodup_append.mp h1).2.2
      exact h2 hmem (by simp)
    have hstep : dictUpdate acc (kv :: rest) = dictUpdate (acc ++ [kv]) rest := by
      simp [dictUpdate, dictSet_append_of_not_mem acc kv.1 kv.2 hk]
    rw [hstep, ih (acc ++ [kv]) (by simpa using hnd)]
    simp

theorem storeKeys_append (s t : List StoredRow) :
    storeKeys (s ++ t) = storeKeys s ++ storeKeys t := List.map_append _ s t

/-- The flush loop succeeds and appends the stamped rows when the dict
keys are pairwise distinct and none of them is already present in the
PRIMARY KEY column of the table it starts from. -/
theorem tableDictFlushLoop_ok (expId : String) :
    ∀ (d : List (String × String)) (st : List StoredRow),
      (d.map Prod.fst).Nodup →
      (∀ k ∈ d.map Prod.fst, ¬ k ∈ storeKeys st) →
      tableDictFlushLoop expId d st =
        .ok (st ++ d.map (fun kv => (expId, kv.1, kv.2)))
  | [], st, _, _ => by simp [tableDictFlushLoop]
  | kv :: rest, st, hnd, hfresh => by
    have hsplit : ¬ kv.1 ∈ rest.map Prod.fst ∧ (rest.map Prod.fst).Nodup := by
      have hnd' : (kv.1 :: rest.map Prod.fst).Nodup := by
        simpa only [List.map_cons] using hnd
      exact ⟨(List.nodup_cons.mp hnd').1, (List.nodup_cons.mp hnd').2⟩
    have hk : ¬ kv.1 ∈ storeKeys st := hfresh kv.1 (by simp)
    have hstep : tableDictFlushLoop expId (kv :: rest) st =
        tableDictFlushLoop expId rest (st ++ [(expId, kv.1, kv.2)]) := by
      simp [tableDictFlushLoop, tableDictInsertRow, hk]
    rw [hstep,
      tableDictFlushLoop_ok expId rest (st ++ [(expId, kv.1, kv.2)]) hsplit.2 ?fresh]
    · simp
    case fresh =>
      intro k hkmem
      rw [storeKeys_append]
      simp only [List.mem_append]
      rintro (hin | hin)
      · exact hfresh k (by simp [hkmem]) hin
      · have hkk : k = kv.1 := by simpa [storeKeys] using hin
        exact hsplit.1 (hkk ▸ hkmem)

/-- C5 counterexample: on a store where another experiment's surviving
row already holds key a, flushing a dict containing key a violates the
PRIMARY KEY of the key column: the engine raises IntegrityError and the
round trip never completes, refuting the claim for arbitrary stores. -/
theorem tableDict_roundTrip_counterexample :
    tableDictFlushChecked "X" [("a", "1")] [("Y", "a", "9")] =
      .error DbError.integrityError := rfl

/-- C5 (amended): flushing a dict with pairwise distinct keys for
experiment X succeeds when no surviving row of another experiment holds
one of the dict's keys (in particular on a freshly created backing
table, which is how an output run starts), and reopening the store as
input for X then materializes exactly the dict; when a surviving row
does hold one of the keys, flush aborts with the engine's
IntegrityError instead. -/
theorem tableDict_roundTrip (expId : String) (store : List StoredRow)
    (d : List (String × String)) (hnd : (d.map Prod.fst).Nodup)
    (hfresh : ∀ k ∈ d.map Prod.fst, ¬ k ∈ storeKeys (tableClear expId store)) :
    tableDictFlushChecked expId d store =
      .ok (tableClear expId store ++ d.map (fun kv => (expId, kv.1, kv.2))) ∧
    tableDictRead expId
      (tableClear expId store ++ d.map (fun kv => (expId, kv.1, kv.2))) = d := by
  refine ⟨tableDictFlushLoop_ok expId d (tableClear expId store) hnd hfresh, ?_⟩
  have hval : tableValue expId
      (tableClear expId store ++ d.map (fun kv => (expId, kv.1, kv.2))) = d := by
    unfold tableValue tableClear
    rw [List.filter_append]
    have h1 : (store.filter (fun r : StoredRow => ¬ r.1 = expId)).filter
        (fun r : StoredRow => r.1 = expId) = [] := by
      apply List.filter_eq_nil_iff.mpr
      intro r hr
      rw [List.mem_filter] at hr
      have hr2 := hr.2
      simp only [decide_not, Bool.not_eq_true', decide_eq_false_iff_not] at hr2
      simp [hr2]
    have h2 : (d.map (fun kv => (expId, kv.1, kv.2))).filter
        (fun r : StoredRow => r.1 = expId) = d.map (fun kv => (expId, kv.1, kv.2)) := by
      apply List.filter_eq_self.mpr
      intro r hr
      simp only [List.mem_map] at hr
      obtain ⟨kv, _, rfl⟩ := hr
      simp
    rw [h1, h2]
    simp [List.map_map]
  unfold tableDictRead
  rw [hval]
  have := dictUpdate_eq_append d [] (by simpa using hnd)
  simpa using this

/-- Witness for the amended C5 with the dict of the specification
scenario on a store holding a non-conflicting row of another
experiment. -/
theorem tableDict_roundTrip_witness :
    (([("a", "1"), ("b", "2")] : List (String × String)).map Prod.fst).Nodup ∧
    (∀ k ∈ ([("a", "1"), ("b", "2")] : List (String × String)).map Prod.fst,
      ¬ k ∈ storeKeys (tableClear "X" [("Y", "c", "9")])) ∧
    tableDictFlushChecked "X" [("a", "1"), ("b", "2")] [("Y", "c", "9")] =
      .ok (tableClear "X" [("Y", "c", "9")] ++
        ([("a", "1"), ("b", "2")] : List (String × String)).map
          (fun kv => ("X", kv.1, kv.2))) ∧
    tableDictRead "X"
        (tableClear "X" [("Y", "c", "9")] ++
          ([("a", "1"), ("b", "2")] : List (String × String)).map
            (fun kv => ("X", kv.1, kv.2))) =
      [("a", "1"), ("b", "2")] :=
  have h := tableDict_roundTrip "X" [("Y", "c", "9")] [("a", "1"), ("b", "2")]
    (by decide) (by decide)
  ⟨by decide, by decide, h.1, h.2⟩

/-! ### Merge reconciler (Database_SQlite_Merger, database.py lines 318-393)

collect_and_create_tables scans every attached source's sqlite_master
catalog; a table name is embedded as a (name, creation-sql) pair and a
source as its list of such pairs.  Seeing a known name with a different
creation statement aborts the whole invocation (sys.exit(-1)) before any
target table is created, because the creation loop runs only after the
full scan.  collect_data accumulates the rows of one table from all its
sources into a Python set before the bulk insert; a row is embedded as
its list of column values and the set as a Finset. -/

/-- One row of a merged table: its column values in order. -/
abbrev MRow := List String

/-- The rows.add loop of collect_data over one source. -/
def addRows (s : Finset MRow) (rows : List MRow) : Finset MRow :=
  rows.foldl (fun acc r => insert r acc) s

/-- The row set collect_data inserts into the target for one table: the
union of the table's rows over all sources that hold it, deduplicated by
full-row value equality. -/
def collectRows (dbs : List (List MRow)) : Finset MRow :=
  dbs.foldl addRows ∅

theorem addRows_mem (rows : List MRow) :
    ∀ (s : Finset MRow) (r : MRow), r ∈ addRows s rows ↔ r ∈ s ∨ r ∈ rows := by
  induction rows with
  | nil => intro s r; simp [addRows]
  | cons x rest ih =>
    intro s r
    have h1 : addRows s (x :: rest) = addRows (insert x s) rest := rfl
    rw [h1, ih]
    simp [Finset.mem_insert]
    tauto

theorem collectRows_mem_aux (dbs : List (List MRow)) :
    ∀ (s : Finset MRow) (r : MRow),
      r ∈ dbs.foldl addRows s ↔ r ∈ s ∨ ∃ db ∈ dbs, r ∈ db := by
  induction dbs with
  | nil => intro s r; simp
  | cons db rest ih =>
    intro s r
    have h1 : (db :: rest).foldl addRows s = rest.foldl addRows (addRows s db) := rfl
    rw [h1, ih, addRows_mem]
    simp only [List.mem_cons]
    constructor
    · rintro ((h | h) | ⟨d, hd, hr⟩)
      · exact Or.inl h
      · exact Or.inr ⟨db, Or.inl rfl, h⟩
      · exact Or.inr ⟨d, Or.inr hd, hr⟩
    · rintro (h | ⟨d, (rfl | hd), hr⟩)
      · exact Or.inl (Or.inl h)
      · exact Or.inl (Or.inr hr)
      · exact Or.inr ⟨d, hd, hr⟩

/-- C6: the merged target table holds exactly the union of the table's
rows over all sources that declare it, deduplicated by full-row value
equality; in the specification's scenario with sources holding rows
(x,k1,v1),(x,k2,v2) and (x,k1,v1),(x,k3,v3) the merged table has
exactly 3 rows. -/
theorem merge_rows_dedup :
    (∀ (dbs : List (List MRow)) (r : MRow),
      r ∈ collectRows dbs ↔ ∃ db ∈ dbs, r ∈ db) ∧
    (collectRows [[["x", "k1", "v1"], ["x", "k2", "v2"]],
        [["x", "k1", "v1"], ["x", "k3", "v3"]]]).card = 3 := by
  constructor
  · intro dbs r
    rw [collectRows, collectRows_mem_aux]
    simp
  · decide

/-- The catalog built by collect_and_create_tables: a list of
(name, creation sql) pairs; hitting a known name with a different sql is
the fatal schema conflict, reported with that name. -/
def addTable (cat : List (String × String)) (t : String × String) :
    Except String (List (String × String)) :=
  match List.lookup t.1 cat with
  | some sql => if sql = t.2 then .ok cat else .error t.1
  | none => .ok (cat ++ [t])

/-- Fold of addTable over a flat list of catalog entries. -/
def collectList (ts : List (String × String)) (acc : Except String (List (String × String))) :
    Except String (List (String × String)) :=
  ts.foldl (fun a t => a.bind (fun c => addTable c t)) acc

/-- collect_and_create_tables: scan the catalogs of all sources in
order; on a conflict the process exits before creating anything. -/
def collectTables (sources : List (List (String × String))) :
    Except String (List (String × String)) :=
  sources.foldl (fun acc db => collectList db acc) (.ok [])

/-- The table names created in the target: all collected names on
success, none when the scan aborted with a schema conflict. -/
def mergeCreatedTables (sources : List (List (String × String))) : List String :=
  match collectTables sources with
  | .ok cat => cat.map Prod.fst
  | .error _ => []

theorem collectList_error (ts : List (String × String)) (m : String) :
    collectList ts (.error m) = .error m := by
  induction ts with
  | nil => rfl
  | cons t rest ih => simpa [collectList] using ih

theorem collectTables_flatten (sources : List (List (String × String))) :
    collectTables sources = collectList sources.flatten (.ok []) := by
  suffices h : ∀ acc, sources.foldl (fun acc db => collectList db acc) acc =
      collectList sources.flatten acc by
    exact h (.ok [])
  induction sources with
  | nil => intro acc; rfl
  | cons db rest ih =>
    intro acc
    have h1 : (db :: rest).foldl (fun acc db => collectList db acc) acc =
        rest.foldl (fun acc db => collectList db acc) (collectList db acc) := rfl
    rw [h1, ih]
    simp [collectList, List.foldl_append]

theorem lookup_mem {c : List (String × String)} {k v : String}
    (h : List.lookup k c = some v) : (k, v) ∈ c := by
  induction c with
  | nil => simp [List.lookup] at h
  | cons p rest ih =>
    by_cases hk : k = p.1
    · subst hk
      simp [List.lookup] at h
      subst h
      have hpe : (p.1, p.2) = p := rfl
      rw [hpe]
      exact List.mem_cons_self _ _
    · rw [List.lookup] at h
      have hb : (k == p.1) = false := beq_eq_false_iff_ne.mpr hk
      rw [hb] at h
      exact List.mem_cons_of_mem _ (ih h)

theorem lookup_append_some {c : List (String × String)} {k v : String}
    (h : List.lookup k c = some v) (c' : List (String × String)) :
    List.lookup k (c ++ c') = some v := by
  induction c with
  | nil => simp [List.lookup] at h
  | cons p rest ih =>
    rw [List.lookup] at h
    rw [List.cons_append, List.lookup]
    cases hb : (k == p.1) with
    | true => rw [hb] at h; exact h
    | false => rw [hb] at h; exact ih h

theorem lookup_append_none {c : List (String × String)} {k : String}
    (h : List.lookup k c = none) (v : String) :
    List.lookup k (c ++ [(k, v)]) = some v := by
  induction c with
  | nil => simp [List.lookup]
  | cons p rest ih =>
    rw [List.lookup] at h
    rw [List.cons_append, List.lookup]
    cases hb : (k == p.1) with
    | true => rw [hb] at h; exact absurd h (by simp)
    | false => rw [hb] at h; exact ih h

theorem addTable_mono {c c' : List (String × String)} {t : String × String}
    (h : addTable c t = .ok c') {k v : String}
    (hl : List.lookup k c = some v) : List.lookup k c' = some v := by
  unfold addTable at h
  cases hc : List.lookup t.1 c with
  | some sql =>
    rw [hc] at h
    by_cases he : sql = t.2
    · simp [he] at h
      subst h
      exact hl
    · simp [he] at h
  | none =>
    rw [hc] at h
    simp at h
    subst h
    exact lookup_append_some hl _

/-- Every entry scanned before a successful end of the scan is recorded
in the final catalog with its own sql. -/
theorem collectList_ok_sound (ts : List (String × String)) :
    ∀ (c c' : List (String × String)), collectList ts (.ok c) = .ok c' →
      (∀ k v, List.lookup k c = some v → List.lookup k c' = some v) ∧
      (∀ t ∈ ts, List.lookup t.1 c' = some t.2) := by
  induction ts with
  | nil =>
    intro c c' h
    have hc : c = c' := by simpa [collectList] using h
    subst hc
    exact ⟨fun _ _ hv => hv, by simp⟩
  | cons t rest ih =>
    intro c c' h
    have h1 : collectList (t :: rest) (.ok c) = collectList rest ((Except.ok c).bind
        (fun c => addTable c t)) := rfl
    rw [h1] at h
    simp only [Except.bind] at h
    cases hat : addTable c t with
    | error m => rw [hat] at h; rw [collectList_error] at h; exact absurd h (by simp)
    | ok c1 =>
      rw [hat] at h
      obtain ⟨hmono, hall⟩ := ih c1 c' h
      refine ⟨fun k v hv => hmono k v (addTable_mono hat hv), ?_⟩
      intro u hu
      rcases List.mem_cons.mp hu with rfl | hu'
      · apply hmono
        unfold addTable at hat
        cases hc : List.lookup u.1 c with
        | some sql =>
          rw [hc] at hat
          by_cases he : sql = u.2
          · simp [he] at hat
            subst hat
            rw [hc, he]
          · simp [he] at hat
        | none =>
          rw [hc] at hat
          simp at hat
          subst hat
          exact lookup_append_none hc u.2
      · exact hall u hu'

/-- A failing scan fails with the name of a genuinely conflicting table:
two scanned catalog entries carry that name with different sqls. -/
theorem collectList_error_origin (ts : List (String × String)) :
    ∀ (c : List (String × String)) (pool : List (String × String)) (m : String),
      (∀ e ∈ c, e ∈ pool) → (∀ e ∈ ts, e ∈ pool) →
      collectList ts (.ok c) = .error m →
      ∃ sqlA sqlB, (m, sqlA) ∈ pool ∧ (m, sqlB) ∈ pool ∧ sqlA ≠ sqlB := by
  induction ts with
  | nil =>
    intro c pool m _ _ h
    exact absurd h (by simp [collectList])
  | cons t rest ih =>
    intro c pool m hc hts h
    have h1 : collectList (t :: rest) (.ok c) = collectList rest ((Except.ok c).bind
        (fun c => addTable c t)) := rfl
    rw [h1] at h
    simp only [Except.bind] at h
    cases hat : addTable c t with
    | error m' =>
      rw [hat] at h
      rw [collectList_error] at h
      have hm : m' = m := by simpa using h
      subst hm
      unfold addTable at hat
      cases hl : List.lookup t.1 c with
      | some sql =>
        rw [hl] at hat
        by_cases he : sql = t.2
        · simp [he] at hat
        · have hname : t.1 = m' := by
            by_contra hne2
            simp [he] at hat
            exact hne2 hat
          subst hname
          refine ⟨sql, t.2, hc _ (lookup_mem hl), ?_, he⟩
          have ht : t ∈ pool := hts t (by simp)
          have : (t.1, t.2) = t := rfl
          rw [this]
          exact ht
      | none =>
        rw [hl] at hat
        exact absurd hat (by simp)
    | ok c1 =>
      rw [hat] at h
      refine ih c1 pool m ?_ (fun e he => hts e (List.mem_cons_of_mem _ he)) h
      intro e he
      unfold addTable at hat
      cases hl : List.lookup t.1 c with
      | some sql =>
        rw [hl] at hat
        by_cases hsq : sql = t.2
        · simp [hsq] at hat
          subst hat
          exact hc e he
        · simp [hsq] at hat
      | none =>
        rw [hl] at hat
        simp at hat
        subst hat
        rcases List.mem_append.mp he with h' | h'
        · exact hc e h'
        · have : e = t := by simpa using h'
          subst this
          exact hts e (by simp)

/-- C7: if two sources declare the same table name with different
creation statements, the scan aborts with a schema-conflict error whose
reported name indeed carries two different creation statements among the
sources, and no table at all is created in the target, so in particular
the target ends up without the conflicting table. -/
theorem merge_schema_conflict (sources : List (List (String × String)))
    (db₁ db₂ : List (String × String)) (n s₁ s₂ : String)
    (h₁ : db₁ ∈ sources) (h₂ : db₂ ∈ sources)
    (ht₁ : (n, s₁) ∈ db₁) (ht₂ : (n, s₂) ∈ db₂) (hne : s₁ ≠ s₂) :
    (∃ m sqlA sqlB, collectTables sources = .error m ∧
      (m, sqlA) ∈ sources.flatten ∧ (m, sqlB) ∈ sources.flatten ∧ sqlA ≠ sqlB) ∧
    mergeCreatedTables sources = [] := by
  have hmem₁ : (n, s₁) ∈ sources.flatten := List.mem_flatten.mpr ⟨db₁, h₁, ht₁⟩
  have hmem₂ : (n, s₂) ∈ sources.flatten := List.mem_flatten.mpr ⟨db₂, h₂, ht₂⟩
  have hflat := collectTables_flatten sources
  cases hres : collectList sources.flatten (.ok []) with
  | ok cat =>
    exfalso
    have hsound := (collectList_ok_sound sources.flatten [] cat hres).2
    have e₁ := hsound (n, s₁) hmem₁
    have e₂ := hsound (n, s₂) hmem₂
    rw [e₁] at e₂
    exact hne (by simpa using e₂)
  | error m =>
    have hct : collectTables sources = .error m := by rw [hflat, hres]
    obtain ⟨sqlA, sqlB, ha, hb, hab⟩ :=
      collectList_error_origin sources.flatten [] sources.flatten m
        (by simp) (fun e he => he) hres
    refine ⟨⟨m, sqlA, sqlB, hct, ha, hb, hab⟩, ?_⟩
    unfold mergeCreatedTables
    rw [hct]

/-- Witness for C7: the specification's scenario of a table T declared
with a value column of type text in one source and integer in the other. -/
theorem merge_schema_conflict_witness :
    (("T", "CREATE TABLE T (id text, key text, value text)") ∈
      ([("T", "CREATE TABLE T (id text, key text, value text)")] :
        List (String × String))) ∧
    (∃ m sqlA sqlB,
      collectTables [[("T", "CREATE TABLE T (id text, key text, value text)")],
        [("T", "CREATE TABLE T (id text, key text, value integer)")]] = .error m ∧
      (m, sqlA) ∈ ([[("T", "CREATE TABLE T (id text, key text, value text)")],
        [("T", "CREATE TABLE T (id text, key text, value integer)")]] :
          List (List (String × String))).flatten ∧
      (m, sqlB) ∈ ([[("T", "CREATE TABLE T (id text, key text, value text)")],
        [("T", "CREATE TABLE T (id text, key text, value integer)")]] :
          List (List (String × String))).flatten ∧
      sqlA ≠ sqlB) ∧
    mergeCreatedTables [[("T", "CREATE TABLE T (id text, key text, value text)")],
      [("T", "CREATE TABLE T (id text, key text, value integer)")]] = [] :=
  have h := merge_schema_conflict
    [[("T", "CREATE TABLE T (id text, key text, value text)")],
      [("T", "CREATE TABLE T (id text, key text, value integer)")]]
    [("T", "CREATE TABLE T (id text, key text, value text)")]
    [("T", "CREATE TABLE T (id text, key text, value integer)")]
    "T" "CREATE TABLE T (id text, key text, value text)"
    "CREATE TABLE T (id text, key text, value integer)"
    (by simp) (by simp) (by simp) (by simp) (by decide)
  ⟨by simp, h.1, h.2⟩

/-! ### Parameter lifecycle (Experiment.execute, experiment.py lines 185-206)

Experiment.execute is straight-line code: the loop resolving the inputs
(inp_extract_cmdline_parser), then __setup_output_directory (which first
computes the identifier from the metadata and only then creates the
output directory), then the loop calling outp_setup_output on each
output, then self.run(), then the loop calling outp_tear_down_output.
The loops iterate self.inputs.items() and self.outputs.items(): Python 2
dicts, whose iteration order is hash-determined, not the declaration
order.  The embedding therefore takes the iteration order each loop
happens to see as a parameter; the setup and teardown loops call
items() separately and so get separate parameters.  A run of execute is
any trace whose iteration orders enumerate the declared parameters
exactly once, i.e. are permutations of the declared lists. -/

inductive LifecycleEvent
| inputResolve (name : String)
| computeIdentifier
| allocateOutputDir
| outputSetup (name : String)
| runBody
| outputTeardown (name : String)
deriving DecidableEq

/-- The five stages in the order the claims speak about; input
resolution is stage 0, identifier computation 1, directory allocation 2,
output setup 3, the run body 4 and output teardown 5. -/
def stageOf : LifecycleEvent → Nat
  | .inputResolve _ => 0
  | .computeIdentifier => 1
  | .allocateOutputDir => 2
  | .outputSetup _ => 3
  | .runBody => 4
  | .outputTeardown _ => 5

/-- The event trace of one Experiment.execute run: the inputs in the
iteration order the input loop sees, then the identifier computation and
the directory allocation, then the outputs in the iteration order the
setup loop sees, the run body, and the outputs in the iteration order
the teardown loop sees. -/
def executeTrace (inputs outputsSetup outputsTeardown : List String) :
    List LifecycleEvent :=
  inputs.map LifecycleEvent.inputResolve
    ++ [LifecycleEvent.computeIdentifier, LifecycleEvent.allocateOutputDir]
    ++ outputsSetup.map LifecycleEvent.outputSetup
    ++ [LifecycleEvent.runBody]
    ++ outputsTeardown.map LifecycleEvent.outputTeardown

/-- The name of an output-setup event, used to recover the setup order. -/
def setupName : LifecycleEvent → Option String
  | .outputSetup n => some n
  | _ => none

theorem pairwise_of_rel_total {α : Type} {r : α → α → Prop} (l : List α)
    (h : ∀ a b, a ∈ l → b ∈ l → r a b) : l.Pairwise r := by
  induction l with
  | nil => exact List.Pairwise.nil
  | cons x rest ih =>
    refine List.Pairwise.cons (fun b hb => h x b (by simp) (by simp [hb])) ?_
    exact ih (fun a b ha hb => h a b (by simp [ha]) (by simp [hb]))

theorem executeTrace_setups (inputs outputsSetup outputsTeardown : List String) :
    (executeTrace inputs outputsSetup outputsTeardown).filterMap setupName =
      outputsSetup := by
  unfold executeTrace
  repeat rw [List.filterMap_append]
  have h0 : ∀ l : List String, (l.map LifecycleEvent.inputResolve).filterMap setupName
      = [] := by
    intro l
    induction l with
    | nil => rfl
    | cons x rest ih => simpa [List.filterMap_cons, setupName] using ih
  have h5 : ∀ l : List String, (l.map LifecycleEvent.outputTeardown).filterMap setupName
      = [] := by
    intro l
    induction l with
    | nil => rfl
    | cons x rest ih => simpa [List.filterMap_cons, setupName] using ih
  have h3 : ∀ l : List String, (l.map LifecycleEvent.outputSetup).filterMap setupName
      = l := by
    intro l
    induction l with
    | nil => rfl
    | cons x rest ih => simpa [List.filterMap_cons, setupName] using ih
  rw [h0, h5, h3]
  simp [List.filterMap_cons, setupName]

/-- C8 counterexample: the output loops iterate a Python 2 dict, whose
iteration order is hash-determined; the order the setup loop sees can be
any enumeration of the declared outputs.  For declared outputs a, b the
iteration order b, a is such an enumeration, and the resulting trace
sets up the outputs in the order b, a, not the declared order a, b; so
the claim's parenthetical that outputs are set up in declared order does
not hold of the program. -/
theorem execute_declared_order_counterexample :
    List.Perm ["b", "a"] ["a", "b"] ∧
    (executeTrace [] ["b", "a"] ["b", "a"]).filterMap setupName ≠ ["a", "b"] :=
  ⟨by decide, by decide⟩

/-- C8 (amended): in every run and for every iteration order of the
input and output dicts, the trace of Experiment.execute is ordered by
stage: every input resolution precedes the identifier computation, which
precedes the allocation of the output directory, which precedes every
output setup, which all precede the run body, which precedes every
output teardown; each declared output is set up exactly once (the setup
sequence is a permutation of the declared outputs), but in the
hash-determined dict iteration order, not necessarily the declared
order. -/
theorem execute_stage_order (inputs outputsSetup outputsTeardown declared : List String)
    (hperm : List.Perm outputsSetup declared) :
    (executeTrace inputs outputsSetup outputsTeardown).Pairwise
      (fun a b => stageOf a ≤ stageOf b) ∧
    List.Perm ((executeTrace inputs outputsSetup outputsTeardown).filterMap setupName)
      declared := by
  have hstage : ∀ (l : List String) (f : String → LifecycleEvent) (k : Nat),
      (∀ n, stageOf (f n) = k) → ∀ e ∈ l.map f, stageOf e = k := by
    intro l f k hf e he
    obtain ⟨n, _, rfl⟩ := List.mem_map.mp he
    exact hf n
  have happ : ∀ (l₁ l₂ : List LifecycleEvent),
      l₁.Pairwise (fun a b => stageOf a ≤ stageOf b) →
      l₂.Pairwise (fun a b => stageOf a ≤ stageOf b) →
      (∀ a ∈ l₁, ∀ b ∈ l₂, stageOf a ≤ stageOf b) →
      (l₁ ++ l₂).Pairwise (fun a b => stageOf a ≤ stageOf b) := by
    intro l₁ l₂ h₁ h₂ h
    exact List.pairwise_append.mpr ⟨h₁, h₂, h⟩
  have hconst : ∀ (l : List String) (f : String → LifecycleEvent) (k : Nat),
      (∀ n, stageOf (f n) = k) →
      (l.map f).Pairwise (fun a b => stageOf a ≤ stageOf b) := by
    intro l f k hf
    apply pairwise_of_rel_total
    intro a b ha hb
    rw [hstage l f k hf a ha, hstage l f k hf b hb]
  constructor
  · unfold executeTrace
    simp only [List.append_assoc]
    have bndE : ∀ b ∈ outputsTeardown.map LifecycleEvent.outputTeardown, stageOf b = 5 :=
      hstage outputsTeardown LifecycleEvent.outputTeardown 5 (fun _ => rfl)
    have bndC : ∀ b ∈ outputsSetup.map LifecycleEvent.outputSetup, stageOf b = 3 :=
      hstage outputsSetup LifecycleEvent.outputSetup 3 (fun _ => rfl)
    have bndA : ∀ b ∈ inputs.map LifecycleEvent.inputResolve, stageOf b = 0 :=
      hstage inputs LifecycleEvent.inputResolve 0 (fun _ => rfl)
    have pwDE : ([LifecycleEvent.runBody] ++
        outputsTeardown.map LifecycleEvent.outputTeardown).Pairwise
        (fun a b => stageOf a ≤ stageOf b) := by
      apply happ
      · exact List.pairwise_singleton _ _
      · exact hconst outputsTeardown LifecycleEvent.outputTeardown 5 (fun _ => rfl)
      · intro a ha b hb
        rcases List.mem_singleton.mp ha with rfl
        rw [bndE b hb]
        exact Nat.le_of_lt (by decide)
    have lbDE : ∀ b ∈ [LifecycleEvent.runBody] ++
        outputsTeardown.map LifecycleEvent.outputTeardown, 4 ≤ stageOf b := by
      intro b hb
      rcases List.mem_append.mp hb with hb' | hb'
      · rcases List.mem_singleton.mp hb' with rfl
        decide
      · rw [bndE b hb']
        omega
    have pwCDE : (outputsSetup.map LifecycleEvent.outputSetup ++
        ([LifecycleEvent.runBody] ++
          outputsTeardown.map LifecycleEvent.outputTeardown)).Pairwise
        (fun a b => stageOf a ≤ stageOf b) := by
      apply happ
      · exact hconst outputsSetup LifecycleEvent.outputSetup 3 (fun _ => rfl)
      · exact pwDE
      · intro a ha b hb
        rw [bndC a ha]
        exact le_trans (by omega) (lbDE b hb)
    have lbCDE : ∀ b ∈ outputsSetup.map LifecycleEvent.outputSetup ++
        ([LifecycleEvent.runBody] ++
          outputsTeardown.map LifecycleEvent.outputTeardown),
        3 ≤ stageOf b := by
      intro b hb
      rcases List.mem_append.mp hb with hb' | hb'
      · rw [bndC b hb']
      · exact le_trans (by omega) (lbDE b hb')
    have pwBC : ([LifecycleEvent.computeIdentifier, LifecycleEvent.allocateOutputDir] ++
        (outputsSetup.map LifecycleEvent.outputSetup ++
          ([LifecycleEvent.runBody] ++
            outputsTeardown.map LifecycleEvent.outputTeardown))).Pairwise
        (fun a b => stageOf a ≤ stageOf b) := by
      apply happ
      · decide
      · exact pwCDE
      · intro a ha b hb
        have hub : stageOf a ≤ 2 := by
          rcases List.mem_cons.mp ha with rfl | ha'
          · decide
          · rcases List.mem_singleton.mp ha' with rfl
            decide
        exact le_trans hub (le_trans (by omega) (lbCDE b hb))
    apply happ
    · exact hconst inputs LifecycleEvent.inputResolve 0 (fun _ => rfl)
    · exact pwBC
    · intro a ha b _
      rw [bndA a ha]
      exact Nat.zero_le _
  · rw [executeTrace_setups]
    exact hperm

/-- Witness for the amended C8: one input, declared outputs a, b, and
the iteration order b, a seen by both output loops. -/
theorem execute_stage_order_witness :
    List.Perm ["b", "a"] ["a", "b"] ∧
    ((executeTrace ["i"] ["b", "a"] ["b", "a"]).Pairwise
      (fun a b => stageOf a ≤ stageOf b) ∧
    List.Perm ((executeTrace ["i"] ["b", "a"] ["b", "a"]).filterMap setupName)
      ["a", "b"]) :=
  ⟨by decide, execute_stage_order ["i"] ["b", "a"] ["b", "a"] ["a", "b"] (by decide)⟩

end Versuchung
